import Mathlib

/-!
Shallow embedding of `wechat_file_manager.py` (class `WeChatFileManager`) and
verification of the specification's claims about it.

Conventions of the embedding:
* Python strings (file names, paths, digests, timestamps) are `List Char`.
* Modification times are natural numbers; the claims only use their ordering.
* The MD5 digest function is external library code (`hashlib.md5`); the
  embedding takes the digest function as an explicit parameter `hashFn`,
  since every claim depends only on digests agreeing on equal byte contents.
* `datetime.isoformat` / `datetime.fromisoformat` are likewise external; the
  embedding takes a formatter `fmt : Nat → List Char` and a fallible parser
  `parse : List Char → Option Nat` as parameters.
* Fallible operations (reading an unreadable file, `stat` on a missing file,
  the uncaught `IndexError` in `clean_filename`) return `Except Unit`; an
  uncaught Python exception is the `.error ()` value, which propagates out of
  `process_files` exactly as the exception propagates out of the loops.
* The SQLite table `file_hashes (hash, file_path, mtime, PRIMARY KEY (hash,
  file_path))` is a list of rows; `INSERT OR REPLACE` deletes the row with the
  same key and appends the new one.  `SELECT ... LIKE` is modelled with full
  SQLite `LIKE` semantics (ASCII case-insensitive, `%` and `_` wildcards).
-/

set_option maxRecDepth 8000

namespace WFM

/-- Characters of a Python string (a file name, path, digest or timestamp). -/
abbrev Chars := List Char

/-- `beginsWith p s` holds when `p` is an initial segment of `s`. -/
def beginsWith : Chars → Chars → Bool
  | [], _ => true
  | _ :: _, [] => false
  | p :: ps, c :: cs => decide (p = c) && beginsWith ps cs

/-- Substring containment, Python's `pattern in name`
(used by `should_process_file`, line 121). -/
def containsSub (pat : Chars) : Chars → Bool
  | [] => beginsWith pat []
  | c :: s => beginsWith pat (c :: s) || containsSub pat s

/-- ASCII lower-casing, as SQLite's default `LIKE` applies to `A`–`Z`. -/
def asciiLower (c : Char) : Char :=
  if 'A' ≤ c ∧ c ≤ 'Z' then Char.ofNat (c.toNat + 32) else c

/-- Expansion of a `%` wildcard: try the continuation on every suffix of the
string. -/
def likeMatchAux (next : Chars → Bool) : Chars → Bool
  | [] => next []
  | c :: s => next (c :: s) || likeMatchAux next s

/-- SQLite `LIKE` pattern matching: `%` matches any run of characters, `_`
matches any single character, plain characters match ASCII
case-insensitively.  The query at line 159 uses the pattern
`str(self.storage_path) + '%'`. -/
def likeMatch : Chars → Chars → Bool
  | [], s => s.isEmpty
  | '%' :: ps, s => likeMatchAux (likeMatch ps) s
  | '_' :: ps, s =>
    match s with
    | [] => false
    | _ :: s' => likeMatch ps s'
  | p :: ps, s =>
    match s with
    | [] => false
    | c :: s' => decide (asciiLower p = asciiLower c) && likeMatch ps s'

/-- Python `base_name.rsplit('.', 1)`: split at the last `'.'`;
`none` when the string contains no `'.'` (Python then returns a
one-element list, and indexing `[1]` raises `IndexError`). -/
def rsplitDot : Chars → Option (Chars × Chars)
  | [] => none
  | c :: rest =>
    match rsplitDot rest with
    | some (b, a) => some (c :: b, a)
    | none => if c = '.' then some ([], rest) else none

/-- Helper for the regular expression of `clean_filename` (line 131), working
on the reversed stem: succeeds when the stem ends in a space, `'('`, one or
more decimal digits, and `')'`, returning the reversed remainder. -/
def stripParenRev : Chars → Option Chars
  | [] => none
  | c :: rest =>
    if c = ')' then
      let ds := rest.takeWhile Char.isDigit
      let r2 := rest.dropWhile Char.isDigit
      if ds.isEmpty then none
      else
        match r2 with
        | '(' :: ' ' :: r => some r
        | _ => none
    else none

/-- The substitution `re.sub(r' \(\d+\)(?=\.[^.]+$)', '', filename)` of
`clean_filename` (line 131).  The look-ahead can only succeed immediately
before the last `'.'`, and only when a nonempty dot-free extension follows
it, so at most one occurrence is removed: the ` (digits)` suffix of the part
before the final extension. -/
def stripDupIndicator (filename : Chars) : Chars :=
  match rsplitDot filename with
  | none => filename
  | some (stem, ext) =>
    if ext.isEmpty then filename
    else
      match stripParenRev stem.reverse with
      | some r => r.reverse ++ '.' :: ext
      | none => filename

/-- `clean_filename` (lines 128-133): remove the duplicate indicator, then
`rsplit('.', 1)` and rebuild the name with `_` plus the first five characters
of the digest before the extension.  When the stripped name contains no dot,
`name_parts[1]` raises `IndexError`, modelled as `none`. -/
def clean_filename (filename : Chars) (file_hash : Chars) : Option Chars :=
  let base_name := stripDupIndicator filename
  match rsplitDot base_name with
  | none => none
  | some (stem, ext) => some (stem ++ '_' :: file_hash.take 5 ++ '.' :: ext)

/-- The resolved configuration (`__init__`, lines 46-53).  `minFileSizeSetting`
is the raw value of `settings.min_file_size` from the YAML file; line 50
multiplies it by `1024 * 1024` to obtain the byte threshold. -/
structure Config where
  storagePath : Chars
  minFileSizeSetting : Nat
  skipPatterns : List Chars
  preserveOriginals : Bool
  targetFolders : List Chars
  lastRun : Option Chars
  deriving DecidableEq

/-- Line 50: `self.min_file_size = config['settings'].get('min_file_size', 0) * 1024 * 1024`. -/
def min_file_size (cfg : Config) : Nat :=
  cfg.minFileSizeSetting * 1024 * 1024

/-- A regular source file as seen by the scan.  `statOk = false` models an
`OSError` from `Path.stat()`; `readable = false` models an `IOError` from
`Path.read_bytes()`.  `size` is the `st_size` metadata and `content` the
bytes `read_bytes` would return. -/
structure MFile where
  path : Chars
  name : Chars
  content : Chars
  size : Nat
  readable : Bool
  statOk : Bool
  mtime : Nat
  deriving DecidableEq

/-- A directory entry yielded by `target_dir.rglob('*')`.  Directories are
omitted: they fail the `is_file()` test just as an absent entry would. -/
inductive Entry where
  | file (f : MFile)
  | symlink (path : Chars) (target : Chars)
  deriving DecidableEq

/-- A target-category subdirectory (`user_dir / target`). -/
structure TargetDir where
  tname : Chars
  tmtime : Nat
  tstatOk : Bool
  entries : List Entry
  deriving DecidableEq

/-- A per-user directory under the WeChat root (line 139). -/
structure UserDir where
  upath : Chars
  umtime : Nat
  ustatOk : Bool
  targets : List TargetDir
  deriving DecidableEq

/-- A row of the `file_hashes` table. -/
structure DBRow where
  rhash : Chars
  rpath : Chars
  rmtime : Nat
  deriving DecidableEq

/-- A file in the storage tree, keyed by its absolute path. -/
structure StorageFile where
  spath : Chars
  scontent : Chars
  smtime : Nat
  deriving DecidableEq

/-- The mutable state threaded through one run: the storage tree, the
database, and observation counters for the moves and copies performed. -/
structure RunSt where
  storage : List StorageFile
  db : List DBRow
  moves : Nat
  copies : Nat
  deriving DecidableEq

/-- The world `process_files` acts on. -/
structure Sys where
  users : List UserDir
  storage : List StorageFile
  db : List DBRow
  deriving DecidableEq

/-- `should_process_directory` (lines 93-110): `True` when there is no prior
run timestamp (Python's falsy test also accepts the empty string); otherwise
compare the directory's mtime with the parsed timestamp, and on any error
from `stat` or `fromisoformat` return `True`. -/
def should_process_directory (parse : Chars → Option Nat) (lastRun : Option Chars)
    (statOk : Bool) (mtime : Nat) : Bool :=
  match lastRun with
  | none => true
  | some lr =>
    if lr.isEmpty then true
    else if statOk then
      match parse lr with
      | some t => decide (t < mtime)
      | none => true
    else true

/-- `should_process_file` (lines 112-126): `False` below the size threshold or
when the base name contains a skip pattern; `True` otherwise, and `True` when
`stat` raises (the bare `except` at line 125). -/
def should_process_file (cfg : Config) (f : MFile) : Bool :=
  if f.statOk then
    if f.size < min_file_size cfg then false
    else if cfg.skipPatterns.any (fun p => containsSub p f.name) then false
    else true
  else true

/-- `calculate_md5` (lines 188-190): read the file's bytes and digest them.
The digest function is the external `hashlib.md5(...).hexdigest()`;
`read_bytes` raises for an unreadable file and the exception is not caught. -/
def calculate_md5 (hashFn : Chars → Chars) (f : MFile) : Except Unit Chars :=
  if f.readable then .ok (hashFn f.content) else .error ()

/-- The `SELECT file_path FROM file_hashes WHERE hash = ? AND file_path LIKE ?`
query of lines 159-161, with pattern `str(self.storage_path) + '%'`.
`fetchone` returns the first matching row. -/
def lookupStorageCopy (db : List DBRow) (h : Chars) (storageRoot : Chars) : Option Chars :=
  (db.find? (fun r => decide (r.rhash = h) && likeMatch (storageRoot ++ ['%']) r.rpath)).map
    (fun r => r.rpath)

/-- `save_file_hash` (lines 84-91), database part: `INSERT OR REPLACE` on the
primary key `(hash, file_path)`. -/
def save_file_hash_db (db : List DBRow) (h p : Chars) (m : Nat) : List DBRow :=
  db.filter (fun r => !(decide (r.rhash = h) && decide (r.rpath = p))) ++ [⟨h, p, m⟩]

/-- `shutil.move` / `shutil.copy2` into the storage tree: both overwrite an
existing destination and both preserve the source's modification time. -/
def storagePut (st : List StorageFile) (p c : Chars) (m : Nat) : List StorageFile :=
  st.filter (fun s => !(decide (s.spath = p))) ++ [⟨p, c, m⟩]

/-- Find a storage file by absolute path. -/
def storageFind (st : List StorageFile) (p : Chars) : Option StorageFile :=
  st.find? (fun s => decide (s.spath = p))

/-- The per-file body of `process_files` (lines 155-178) for one directory
entry.  Symlinks are skipped by the `not file_path.is_symlink()` filter.  For
a regular file passing `should_process_file`:

* compute the digest (line 156; an unreadable file raises, uncaught);
* query the database for an existing storage copy (lines 159-161);
* if found, reuse the stored path: no move or copy (lines 163-164);
* if not found, resolve the destination name (line 166; an extensionless name
  raises `IndexError`, uncaught) and `copy2` (preserve mode) or `move` the
  file to `storage_target_dir / clean_name` (lines 167-171);
* in non-preserve mode, remove the original if it still exists and create a
  symbolic link at the original path pointing at the destination
  (lines 173-176);
* `save_file_hash(file_hash, file_path)` (line 178) stats the *original*
  path — in non-preserve mode this follows the fresh symlink, so it raises
  when the link target does not exist, and in preserve mode it raises when
  the original cannot be stat-ed — and records the row
  `(digest, source path, mtime)`.

On a Python exception the loop state on disk is partially mutated; no claim
inspects post-abort state, so the `.error ()` result carries none. -/
def processEntry (hashFn : Chars → Chars) (cfg : Config) (storageTargetDir : Chars)
    (st : RunSt) : Entry → Except Unit (Entry × RunSt)
  | .symlink p t => .ok (.symlink p t, st)
  | .file f =>
    if ¬ should_process_file cfg f then .ok (.file f, st)
    else
      match calculate_md5 hashFn f with
      | .error e => .error e
      | .ok file_hash =>
        match lookupStorageCopy st.db file_hash cfg.storagePath with
        | some storedPath =>
          if cfg.preserveOriginals then
            if f.statOk then
              .ok (.file f, { st with db := save_file_hash_db st.db file_hash f.path f.mtime })
            else .error ()
          else
            match storageFind st.storage storedPath with
            | some sf =>
              .ok (.symlink f.path storedPath,
                   { st with db := save_file_hash_db st.db file_hash f.path sf.smtime })
            | none => .error ()
        | none =>
          match clean_filename f.name file_hash with
          | none => .error ()
          | some clean_name =>
            let new_path := storageTargetDir ++ '/' :: clean_name
            if cfg.preserveOriginals then
              if f.statOk then
                .ok (.file f,
                     { storage := storagePut st.storage new_path f.content f.mtime
                       db := save_file_hash_db st.db file_hash f.path f.mtime
                       moves := st.moves
                       copies := st.copies + 1 })
              else .error ()
            else
              .ok (.symlink f.path new_path,
                   { storage := storagePut st.storage new_path f.content f.mtime
                     db := save_file_hash_db st.db file_hash f.path f.mtime
                     moves := st.moves + 1
                     copies := st.copies })

/-- The `for file_path in target_dir.rglob('*')` loop (line 154), over the
recursively enumerated entries; a raised exception aborts the loop. -/
def processEntries (hashFn : Chars → Chars) (cfg : Config) (storageTargetDir : Chars)
    (st : RunSt) : List Entry → Except Unit (List Entry × RunSt)
  | [] => .ok ([], st)
  | e :: rest =>
    match processEntry hashFn cfg storageTargetDir st e with
    | .error err => .error err
    | .ok (e', st') =>
      match processEntries hashFn cfg storageTargetDir st' rest with
      | .error err => .error err
      | .ok (rest', st'') => .ok (e' :: rest', st'')

/-- The `for target in self.target_folders` loop (lines 146-152): look the
configured name up among the user's subdirectories (absent or unmodified ones
are skipped), then process its entries into `storage_path / target`. -/
def processTargetFolders (hashFn : Chars → Chars) (parse : Chars → Option Nat)
    (cfg : Config) (st : RunSt) (targets : List TargetDir) :
    List Chars → Except Unit (List TargetDir × RunSt)
  | [] => .ok (targets, st)
  | tn :: rest =>
    match targets.find? (fun t => decide (t.tname = tn)) with
    | none => processTargetFolders hashFn parse cfg st targets rest
    | some t =>
      if ¬ should_process_directory parse cfg.lastRun t.tstatOk t.tmtime then
        processTargetFolders hashFn parse cfg st targets rest
      else
        match processEntries hashFn cfg (cfg.storagePath ++ '/' :: tn) st t.entries with
        | .error err => .error err
        | .ok (es', st') =>
          processTargetFolders hashFn parse cfg st'
            (targets.map (fun t2 => if t2.tname = tn then { t2 with entries := es' } else t2))
            rest

/-- One user directory (lines 142-152): skipped whole when
`should_process_directory` rejects it. -/
def processUser (hashFn : Chars → Chars) (parse : Chars → Option Nat) (cfg : Config)
    (st : RunSt) (u : UserDir) : Except Unit (UserDir × RunSt) :=
  if ¬ should_process_directory parse cfg.lastRun u.ustatOk u.umtime then .ok (u, st)
  else
    match processTargetFolders hashFn parse cfg st u.targets cfg.targetFolders with
    | .error err => .error err
    | .ok (ts', st') => .ok ({ u with targets := ts' }, st')

/-- The outer `for user_dir in user_dirs` loop (line 142). -/
def processUsers (hashFn : Chars → Chars) (parse : Chars → Option Nat) (cfg : Config)
    (st : RunSt) : List UserDir → Except Unit (List UserDir × RunSt)
  | [] => .ok ([], st)
  | u :: rest =>
    match processUser hashFn parse cfg st u with
    | .error err => .error err
    | .ok (u', st') =>
      match processUsers hashFn parse cfg st' rest with
      | .error err => .error err
      | .ok (rest', st'') => .ok (u' :: rest', st'')

/-- `process_files` (lines 135-178): run over every user directory, returning
the updated world together with the number of moves and copies performed. -/
def process_files (hashFn : Chars → Chars) (parse : Chars → Option Nat) (cfg : Config)
    (sys : Sys) : Except Unit (Sys × Nat × Nat) :=
  match processUsers hashFn parse cfg ⟨sys.storage, sys.db, 0, 0⟩ sys.users with
  | .error err => .error err
  | .ok (us', st') => .ok (⟨us', st'.storage, st'.db⟩, st'.moves, st'.copies)

/-- `update_last_run` (lines 180-186): write `datetime.now().isoformat()` back
into the configuration's `state.last_run`. -/
def update_last_run (fmt : Nat → Chars) (cfg : Config) (now : Nat) : Config :=
  { cfg with lastRun := some (fmt now) }

/-- The `run` command of `main` (lines 205-207): `process_files` followed — on
success only, since an exception propagates out of `main` — by
`update_last_run`. -/
def consolidate (hashFn : Chars → Chars) (parse : Chars → Option Nat) (fmt : Nat → Chars)
    (cfg : Config) (sys : Sys) (now : Nat) : Except Unit (Config × Sys × Nat × Nat) :=
  match process_files hashFn parse cfg sys with
  | .error err => .error err
  | .ok (sys', m, c) => .ok (update_last_run fmt cfg now, sys', m, c)

/-! ### Concrete sample data used by the closed evaluation theorems -/

/-- A concrete digest function for the closed evaluations: the identity on the
byte content.  The general theorems quantify over the digest function; the
claims depend only on digests agreeing on equal contents. -/
def hashId : Chars → Chars := fun c => c

/-- A concrete timestamp serialization for the closed evaluations
(the general theorems quantify over `fmt`). -/
def fmtU (n : Nat) : Chars := List.replicate n 'x'

/-- A concrete fallible timestamp parser matching `fmtU` on nonempty strings
(the general theorems quantify over `parse`). -/
def parseU (s : Chars) : Option Nat :=
  if ¬ s.isEmpty ∧ s.all (fun c => decide (c = 'x')) then some s.length else none

/-- Sample configuration: storage at `/st`, one target category `Image`, no
size threshold, no skip patterns, no previous run, originals not preserved. -/
def cfgBase : Config :=
  { storagePath := "/st".toList
    minFileSizeSetting := 0
    skipPatterns := []
    preserveOriginals := false
    targetFolders := ["Image".toList]
    lastRun := none }

/-- Sample source file `a.jpg` with content `XYZ`. -/
def fileA : MFile :=
  { path := "/wc/u1/Image/a.jpg".toList
    name := "a.jpg".toList
    content := "XYZ".toList
    size := 3
    readable := true
    statOk := true
    mtime := 10 }

/-- Sample source file `b.jpg` whose byte content equals `fileA`'s. -/
def fileB : MFile :=
  { path := "/wc/u1/Image/b.jpg".toList
    name := "b.jpg".toList
    content := "XYZ".toList
    size := 3
    readable := true
    statOk := true
    mtime := 10 }

/-- Sample unreadable source file (`read_bytes` raises `IOError`). -/
def fileBad : MFile :=
  { path := "/wc/u1/Image/c.jpg".toList
    name := "c.jpg".toList
    content := "XYZ".toList
    size := 3
    readable := false
    statOk := true
    mtime := 10 }

/-- A sample user directory holding the given `Image` entries. -/
def user1 (es : List Entry) : UserDir :=
  { upath := "/wc/u1".toList
    umtime := 10
    ustatOk := true
    targets := [{ tname := "Image".toList, tmtime := 10, tstatOk := true, entries := es }] }

/-- World with the single source file `a.jpg`, empty storage and database. -/
def sysA : Sys := { users := [user1 [.file fileA]], storage := [], db := [] }

/-- World with the two identical-content source files `a.jpg` and `b.jpg`. -/
def sysB : Sys := { users := [user1 [.file fileA, .file fileB]], storage := [], db := [] }

/-- World whose first file is unreadable and whose second is fine. -/
def sysC : Sys := { users := [user1 [.file fileBad, .file fileB]], storage := [], db := [] }

/-- Modelled from the spec's words (§4.2, "a path for this digest that lives
under `storageRoot`"), for comparison with the source's string-prefix lookup:
a path located under the storage root directory continues the root with a
path separator. -/
def specLocatedUnder (root p : Chars) : Bool :=
  beginsWith (root ++ ['/']) p

/-! ### Helper lemmas -/

theorem rsplitDot_eq_none {s : Chars} (h : '.' ∉ s) : rsplitDot s = none := by
  induction s with
  | nil => rfl
  | cons c rest ih =>
    have hc : ¬ c = '.' := fun hc => h (hc ▸ List.mem_cons_self c rest)
    have hr : '.' ∉ rest := fun hm => h (List.mem_cons_of_mem c hm)
    simp [rsplitDot, ih hr, hc]

theorem stripDupIndicator_no_dot {s : Chars} (h : '.' ∉ s) : stripDupIndicator s = s := by
  unfold stripDupIndicator
  rw [rsplitDot_eq_none h]

theorem rsplitDot_append {e : Chars} (he : '.' ∉ e) :
    ∀ xs : Chars, rsplitDot (xs ++ '.' :: e) = some (xs, e)
  | [] => by simp [rsplitDot, rsplitDot_eq_none he]
  | c :: xs => by simp [rsplitDot, rsplitDot_append he xs]

theorem takeWhile_digits_append {l : Chars} (hl : ∀ c ∈ l, c.isDigit = true) (r : Chars) :
    (l ++ '(' :: r).takeWhile Char.isDigit = l ∧
      (l ++ '(' :: r).dropWhile Char.isDigit = '(' :: r := by
  induction l with
  | nil => constructor <;> simp [List.takeWhile, List.dropWhile]
  | cons c cs ih =>
    have hc : c.isDigit = true := hl c (List.mem_cons_self c cs)
    have hcs : ∀ x ∈ cs, x.isDigit = true := fun x hx => hl x (List.mem_cons_of_mem c hx)
    obtain ⟨iht, ihd⟩ := ih hcs
    constructor
    · simp [List.takeWhile_cons, hc, iht]
    · simp [List.dropWhile_cons, hc, ihd]

theorem beginsWith_append (a r : Chars) : beginsWith a (a ++ r) = true := by
  induction a with
  | nil => rfl
  | cons c cs ih => simp [beginsWith, ih]

theorem mem_eq_of_nodup_map {α β : Type _} {f : α → β} {l : List α}
    (hn : (l.map f).Nodup) : ∀ a ∈ l, ∀ b ∈ l, f a = f b → a = b := by
  induction l with
  | nil => intro a ha; cases ha
  | cons x xs ih =>
    simp only [List.map_cons, List.nodup_cons] at hn
    intro a ha b hb hf
    rcases List.mem_cons.mp ha with rfl | ha' <;> rcases List.mem_cons.mp hb with rfl | hb'
    · rfl
    · exact absurd (hf ▸ List.mem_map_of_mem f hb') hn.1
    · exact absurd (hf ▸ List.mem_map_of_mem f ha') hn.1
    · exact ih hn.2 a ha' b hb' hf

theorem map_eq_self_of_eq {α : Type _} {l : List α} {g : α → α}
    (h : ∀ a ∈ l, g a = a) : l.map g = l := by
  induction l with
  | nil => rfl
  | cons x xs ih =>
    simp [h x (List.mem_cons_self x xs), ih (fun a ha => h a (List.mem_cons_of_mem x ha))]

/-! ### Claim theorems -/

/-- C4 (counterexample): with the configured minimum file size read as bytes,
as the claim states, a file of exactly that many bytes would be eligible; the
code multiplies the setting by `1024 * 1024` (line 50), so with the setting
`1` a file of exactly `1` byte is rejected by `should_process_file`. -/
theorem c4_byte_threshold_cex :
    should_process_file { cfgBase with minFileSizeSetting := 1 } { fileA with size := 1 }
      = false := by
  decide

/-- C4 (amended): the configured minimum file size is interpreted as MiB —
the effective byte threshold is the setting times `1024 * 1024` — and, all
other eligibility conditions being met, `should_process_file` accepts a file
precisely when its size reaches that threshold: a file of exactly
`setting * 1048576` bytes is eligible and one byte smaller is not. -/
theorem c4_threshold_mib (cfg : Config) (f : MFile)
    (hstat : f.statOk = true)
    (hpat : cfg.skipPatterns.any (fun p => containsSub p f.name) = false) :
    should_process_file cfg f = true ↔ cfg.minFileSizeSetting * 1024 * 1024 ≤ f.size := by
  unfold should_process_file min_file_size
  rw [hstat, hpat]
  simp only [if_true, Bool.false_eq_true, if_false]
  split
  · next hlt => simp only [Bool.false_eq_true, false_iff]; omega
  · next hge => simp only [true_iff]; omega

theorem c4_threshold_mib_witness :
    should_process_file { cfgBase with minFileSizeSetting := 1 } { fileA with size := 1048576 }
        = true ∧
      should_process_file { cfgBase with minFileSizeSetting := 1 } { fileA with size := 1048575 }
        = false := by
  constructor
  · exact (c4_threshold_mib { cfgBase with minFileSizeSetting := 1 }
      { fileA with size := 1048576 } (by decide) (by decide)).mpr (by decide)
  · decide

/-- C5 (confirmed): for every file name containing no `'.'`,
`clean_filename` raises (`name_parts[1]`, an out-of-range index on the
one-element result of `rsplit`), modelled as `none`; consequently the
step-4 consolidation path for a new-content file with such a name fails
(`processEntry` propagates the error instead of producing a storage copy). -/
theorem c5_no_extension_fails :
    (∀ (name fh : Chars), '.' ∉ name → clean_filename name fh = none) ∧
    (∀ (hashFn : Chars → Chars) (cfg : Config) (tdir : Chars) (st : RunSt) (f : MFile),
      should_process_file cfg f = true → f.readable = true → '.' ∉ f.name →
      lookupStorageCopy st.db (hashFn f.content) cfg.storagePath = none →
      processEntry hashFn cfg tdir st (.file f) = .error ()) := by
  have key : ∀ (name fh : Chars), '.' ∉ name → clean_filename name fh = none := by
    intro name fh h
    simp only [clean_filename, stripDupIndicator_no_dot h, rsplitDot_eq_none h]
  refine ⟨key, ?_⟩
  intro hashFn cfg tdir st f helig hread hnd hlook
  simp only [processEntry, helig, calculate_md5, hread, hlook,
    key f.name (hashFn f.content) hnd, not_true, if_true, if_false, ite_self]

theorem c5_no_extension_fails_witness :
    clean_filename "noext".toList "abcdef".toList = none ∧
    processEntry hashId cfgBase "/st/Image".toList ⟨[], [], 0, 0⟩
      (.file { fileA with name := "noext".toList }) = .error () := by
  constructor
  · exact c5_no_extension_fails.1 _ _ (by decide)
  · exact c5_no_extension_fails.2 hashId cfgBase _ _ _ (by decide) rfl (by decide) rfl

/-- C6 (counterexample): the step-2 lookup matches `file_path LIKE
storage_path + '%'` (lines 159-161), a string-prefix test; with storage root
`/s`, a row for the unrelated path `/sx/f` is returned even though that path
is not located under the storage root directory. -/
theorem c6_prefix_lookup_cex :
    lookupStorageCopy [⟨"h1".toList, "/sx/f".toList, 0⟩] "h1".toList "/s".toList
        = some "/sx/f".toList ∧
      specLocatedUnder "/s".toList "/sx/f".toList = false := by
  exact ⟨by decide, by decide⟩

/-- C6 (amended): every path returned by the step-2 lookup comes from a row
of the index with the requested digest whose path matches the SQL `LIKE`
pattern `storageRoot + '%'` — a string-prefix match (ASCII case-insensitive,
with `%`/`_` wildcards from the root string), which does not guarantee the
path is located under the storage root directory. -/
theorem c6_lookup_prefix_only (db : List DBRow) (h root p : Chars)
    (hl : lookupStorageCopy db h root = some p) :
    ∃ r ∈ db, r.rhash = h ∧ r.rpath = p ∧ likeMatch (root ++ ['%']) p = true := by
  unfold lookupStorageCopy at hl
  cases hfind : db.find? (fun r => decide (r.rhash = h) && likeMatch (root ++ ['%']) r.rpath) with
  | none => rw [hfind] at hl; cases hl
  | some r =>
    rw [hfind] at hl
    simp only [Option.map_some', Option.some.injEq] at hl
    have hmem := List.mem_of_find?_eq_some hfind
    have hpred := List.find?_some hfind
    simp only [Bool.and_eq_true, decide_eq_true_eq] at hpred
    exact ⟨r, hmem, hpred.1, hl, hl ▸ hpred.2⟩

theorem c6_lookup_prefix_only_witness :
    ∃ r ∈ [DBRow.mk "h1".toList "/st/x.jpg".toList 5],
      r.rhash = "h1".toList ∧ r.rpath = "/st/x.jpg".toList ∧
        likeMatch ("/st".toList ++ ['%']) "/st/x.jpg".toList = true :=
  c6_lookup_prefix_only [DBRow.mk "h1".toList "/st/x.jpg".toList 5]
    "h1".toList "/st".toList "/st/x.jpg".toList (by decide)

/-- C7 (confirmed): `should_process_directory` returns `True` for every
directory when no last-run timestamp exists; when one exists and both the
directory metadata read and the timestamp parse succeed, it returns `True`
exactly when the directory's modification time is strictly after the
timestamp; and on a metadata or parse error it returns `True` (fail open). -/
theorem c7_should_process_directory_spec (parse : Chars → Option Nat)
    (statOk : Bool) (mtime : Nat) :
    (should_process_directory parse none statOk mtime = true) ∧
    (∀ (lr : Chars) (t : Nat), lr ≠ [] → statOk = true → parse lr = some t →
      (should_process_directory parse (some lr) statOk mtime = true ↔ t < mtime)) ∧
    (∀ lr : Chars, statOk = false ∨ parse lr = none →
      should_process_directory parse (some lr) statOk mtime = true) := by
  refine ⟨rfl, ?_, ?_⟩
  · intro lr t hne hs hp
    have hie : lr.isEmpty = false := by
      cases lr
      · exact absurd rfl hne
      · rfl
    simp only [should_process_directory, hs, hp, hie]
    simp
  · intro lr hor
    rcases hor with hs | hp
    · simp only [should_process_directory, hs, Bool.false_eq_true, if_false, ite_self]
    · simp only [should_process_directory, hp, ite_self]

theorem c7_should_process_directory_spec_witness :
    should_process_directory parseU (some (fmtU 3)) true 5 = true :=
  ((c7_should_process_directory_spec parseU true 5).2.1 (fmtU 3) 3
    (by decide) rfl (by decide)).mpr (by decide)

/-- C8 (confirmed): `clean_filename` strips a trailing ` (n)` duplicate
counter immediately before the extension and inserts `_` plus the first five
characters of the digest before the extension, preserving the extension
exactly; in particular it maps `IMG_0001 (2).jpg` with digest `abcdef0123`
to `IMG_0001_abcde.jpg`. -/
theorem c8_clean_filename_spec (b d e fh : Chars) (hd : d ≠ [])
    (hdd : ∀ c ∈ d, c.isDigit = true) (he : e ≠ []) (hne : '.' ∉ e) :
    clean_filename (b ++ ' ' :: '(' :: d ++ ')' :: '.' :: e) fh
        = some (b ++ '_' :: fh.take 5 ++ '.' :: e) ∧
      clean_filename "IMG_0001 (2).jpg".toList "abcdef0123".toList
        = some "IMG_0001_abcde.jpg".toList := by
  refine ⟨?_, by decide⟩
  have hshape : b ++ ' ' :: '(' :: d ++ ')' :: '.' :: e
      = (b ++ ' ' :: '(' :: (d ++ [')'])) ++ '.' :: e := by
    simp
  have hsplit := rsplitDot_append hne (b ++ ' ' :: '(' :: (d ++ [')']))
  have hrev : (b ++ ' ' :: '(' :: (d ++ [')'])).reverse
      = ')' :: (d.reverse ++ '(' :: ' ' :: b.reverse) := by
    simp
  have hdigits : ∀ c ∈ d.reverse, c.isDigit = true := by
    intro c hc
    exact hdd c (List.mem_reverse.mp hc)
  obtain ⟨htake, hdrop⟩ := takeWhile_digits_append hdigits (' ' :: b.reverse)
  have hparen : stripParenRev ((b ++ ' ' :: '(' :: (d ++ [')'])).reverse) = some b.reverse := by
    rw [hrev]
    unfold stripParenRev
    simp only [if_true]
    rw [htake, hdrop]
    have : d.reverse.isEmpty = false := by
      cases hrd : d.reverse with
      | nil => exact absurd (List.reverse_eq_nil_iff.mp hrd) hd
      | cons x xs => rfl
    rw [this]
    simp
  have hee : e.isEmpty = false := by
    cases e
    · exact absurd rfl he
    · rfl
  have hsplit' : rsplitDot (b ++ ' ' :: '(' :: d ++ ')' :: '.' :: e)
      = some (b ++ ' ' :: '(' :: (d ++ [')']), e) := by
    rw [hshape]; exact hsplit
  have hstrip : stripDupIndicator (b ++ ' ' :: '(' :: d ++ ')' :: '.' :: e)
      = b ++ '.' :: e := by
    simp only [stripDupIndicator, hsplit', hee, Bool.false_eq_true, if_false, hparen,
      List.reverse_reverse]
  simp only [clean_filename, hstrip, rsplitDot_append hne b]

theorem c8_clean_filename_spec_witness :
    clean_filename "IMG_0001 (2).jpg".toList "abcdef0123".toList
      = some "IMG_0001_abcde.jpg".toList :=
  (c8_clean_filename_spec "IMG_0001".toList "2".toList "jpg".toList "abcdef0123".toList
    (by decide) (by decide) (by decide) (by decide)).2

/-- World `sysA` after one non-preserve run: the source entry replaced by a
symlink, one storage object, and one database row — whose path is the
*source* path `/wc/u1/Image/a.jpg` (line 178 passes `file_path` to
`save_file_hash`), not the storage destination. -/
def sysA1 : Sys :=
  { users := [{ upath := "/wc/u1".toList, umtime := 10, ustatOk := true,
                targets := [{ tname := "Image".toList, tmtime := 10, tstatOk := true,
                              entries := [.symlink "/wc/u1/Image/a.jpg".toList
                                            "/st/Image/a_XYZ.jpg".toList] }] }]
    storage := [⟨"/st/Image/a_XYZ.jpg".toList, "XYZ".toList, 10⟩]
    db := [⟨"XYZ".toList, "/wc/u1/Image/a.jpg".toList, 10⟩] }

/-- C1 (refuted; code bug): consolidating a fresh new-content file (the step-4
path) records only the row `(digest, source path)` in the index — line 178
calls `save_file_hash(file_hash, file_path)` with the source path, and no
`(digest, storage path)` row is ever inserted — so the step-2 lookup for the
same digest under the storage root still finds nothing after the run,
contradicting the claim that it succeeds on subsequent runs. -/
theorem c1_storage_row_never_recorded :
    process_files hashId parseU cfgBase sysA = .ok (sysA1, 1, 0) ∧
      sysA1.db = [⟨"XYZ".toList, "/wc/u1/Image/a.jpg".toList, 10⟩] ∧
      lookupStorageCopy sysA1.db "XYZ".toList cfgBase.storagePath = none := by
  refine ⟨rfl, rfl, rfl⟩

/-- World `sysB` (two identical-content files) after one non-preserve run:
two distinct storage objects and two moves. -/
def sysB1 : Sys :=
  { users := [{ upath := "/wc/u1".toList, umtime := 10, ustatOk := true,
                targets := [{ tname := "Image".toList, tmtime := 10, tstatOk := true,
                              entries := [.symlink "/wc/u1/Image/a.jpg".toList
                                            "/st/Image/a_XYZ.jpg".toList,
                                          .symlink "/wc/u1/Image/b.jpg".toList
                                            "/st/Image/b_XYZ.jpg".toList] }] }]
    storage := [⟨"/st/Image/a_XYZ.jpg".toList, "XYZ".toList, 10⟩,
                ⟨"/st/Image/b_XYZ.jpg".toList, "XYZ".toList, 10⟩]
    db := [⟨"XYZ".toList, "/wc/u1/Image/a.jpg".toList, 10⟩,
           ⟨"XYZ".toList, "/wc/u1/Image/b.jpg".toList, 10⟩] }

/-- C2 (refuted; code bug): two source files with identical byte content
processed in the same run and the same target category end up at two
*different* storage paths, and two storage objects are created (two moves):
because the first file's insertion recorded the source path rather than the
storage path, the second file's step-2 lookup finds nothing and takes the
step-4 path again. -/
theorem c2_duplicate_content_two_storage_objects :
    fileA.content = fileB.content ∧
      process_files hashId parseU cfgBase sysB = .ok (sysB1, 2, 0) ∧
      sysB1.storage.map (fun s => s.spath)
        = ["/st/Image/a_XYZ.jpg".toList, "/st/Image/b_XYZ.jpg".toList] ∧
      ("/st/Image/a_XYZ.jpg".toList : Chars) ≠ "/st/Image/b_XYZ.jpg".toList := by
  refine ⟨rfl, rfl, rfl, by decide⟩

/-- C3 (counterexample): a world whose first eligible file is unreadable.
`calculate_md5` raises and nothing in `process_files` catches it, so the
whole run aborts (`.error ()`); the remaining readable file `b.jpg` is never
processed, contradicting the claim that the single file is skipped and the
run continues. -/
theorem c3_unreadable_aborts_run_cex :
    process_files hashId parseU cfgBase sysC = .error () := by
  rfl

/-- C3 (amended): a per-file failure during fingerprinting is *not* caught:
the exception propagates out of the per-file loop, so every entry after the
failing file — and every remaining directory — goes unprocessed and the run
aborts; only the eligibility checks (`should_process_directory`,
`should_process_file`) swallow errors internally. -/
theorem c3_per_file_failure_aborts (hashFn : Chars → Chars) (cfg : Config) (tdir : Chars)
    (st : RunSt) (f : MFile) (rest : List Entry)
    (helig : should_process_file cfg f = true) (hread : f.readable = false) :
    processEntries hashFn cfg tdir st (.file f :: rest) = .error () := by
  simp only [processEntries, processEntry, helig, calculate_md5, hread, not_true,
    if_true, if_false, Bool.false_eq_true, ite_self]

theorem c3_per_file_failure_aborts_witness :
    processEntries hashId cfgBase "/st/Image".toList ⟨[], [], 0, 0⟩
      [.file fileBad, .file fileB] = .error () :=
  c3_per_file_failure_aborts hashId cfgBase "/st/Image".toList ⟨[], [], 0, 0⟩
    fileBad [.file fileB] (by decide) rfl

/-- In preserve mode the per-file step never alters the directory entry. -/
theorem processEntry_preserve_entry {hashFn : Chars → Chars} {cfg : Config} {tdir : Chars}
    {st : RunSt} {e e' : Entry} {st' : RunSt}
    (hp : cfg.preserveOriginals = true)
    (h : processEntry hashFn cfg tdir st e = .ok (e', st')) : e' = e := by
  cases e with
  | symlink p t =>
    simp only [processEntry, Except.ok.injEq, Prod.mk.injEq] at h
    exact h.1.symm
  | file f =>
    simp only [processEntry, hp, if_true] at h
    split at h
    · simp only [Except.ok.injEq, Prod.mk.injEq] at h
      exact h.1.symm
    · split at h
      · cases h
      · split at h
        · split at h
          · simp only [Except.ok.injEq, Prod.mk.injEq] at h
            exact h.1.symm
          · cases h
        · split at h
          · cases h
          · split at h
            · simp only [Except.ok.injEq, Prod.mk.injEq] at h
              exact h.1.symm
            · cases h

/-- In preserve mode the per-directory loop leaves the entry list unchanged. -/
theorem processEntries_preserve_entries {hashFn : Chars → Chars} {cfg : Config} {tdir : Chars}
    (hp : cfg.preserveOriginals = true) :
    ∀ (es : List Entry) (st : RunSt) (es' : List Entry) (st' : RunSt),
      processEntries hashFn cfg tdir st es = .ok (es', st') → es' = es := by
  intro es
  induction es with
  | nil =>
    intro st es' st' h
    simp only [processEntries, Except.ok.injEq, Prod.mk.injEq] at h
    exact h.1.symm
  | cons e rest ih =>
    intro st es' st' h
    simp only [processEntries] at h
    cases h1 : processEntry hashFn cfg tdir st e with
    | error err => rw [h1] at h; cases h
    | ok p =>
      obtain ⟨e', st1⟩ := p
      rw [h1] at h
      dsimp only at h
      cases h2 : processEntries hashFn cfg tdir st1 rest with
      | error err => rw [h2] at h; cases h
      | ok q =>
        obtain ⟨rest', st2⟩ := q
        rw [h2] at h
        simp only [Except.ok.injEq, Prod.mk.injEq] at h
        rw [← h.1, processEntry_preserve_entry hp h1, ih st1 rest' st2 h2]

/-- In preserve mode, with distinct target-directory names, the target-folder
loop leaves the user's subdirectories unchanged. -/
theorem processTargetFolders_preserve {hashFn : Chars → Chars} {parse : Chars → Option Nat}
    {cfg : Config} (hp : cfg.preserveOriginals = true) :
    ∀ (tfs : List Chars) (st : RunSt) (targets : List TargetDir),
      (targets.map TargetDir.tname).Nodup →
      ∀ (ts' : List TargetDir) (st' : RunSt),
        processTargetFolders hashFn parse cfg st targets tfs = .ok (ts', st') →
        ts' = targets := by
  intro tfs
  induction tfs with
  | nil =>
    intro st targets hn ts' st' h
    simp only [processTargetFolders, Except.ok.injEq, Prod.mk.injEq] at h
    exact h.1.symm
  | cons tn rest ih =>
    intro st targets hn ts' st' h
    simp only [processTargetFolders] at h
    cases hf : targets.find? (fun t => decide (t.tname = tn)) with
    | none =>
      rw [hf] at h
      exact ih st targets hn ts' st' h
    | some t =>
      rw [hf] at h
      dsimp only at h
      split at h
      · exact ih st targets hn ts' st' h
      · cases hpe : processEntries hashFn cfg (cfg.storagePath ++ '/' :: tn) st t.entries with
        | error err => rw [hpe] at h; cases h
        | ok q =>
          obtain ⟨es', st1⟩ := q
          rw [hpe] at h
          dsimp only at h
          have hes : es' = t.entries := processEntries_preserve_entries hp t.entries st es' st1 hpe
          have htn : t.tname = tn := by
            have := List.find?_some hf
            simpa using this
          have hmem : t ∈ targets := List.mem_of_find?_eq_some hf
          have hmap : targets.map
              (fun t2 => if t2.tname = tn then { t2 with entries := es' } else t2) = targets := by
            apply map_eq_self_of_eq
            intro a ha
            by_cases hat : a.tname = tn
            · have hae : a = t := mem_eq_of_nodup_map hn a ha t hmem (by rw [hat, htn])
              subst hae
              rw [if_pos hat, hes]
            · rw [if_neg hat]
          rw [hmap] at h
          exact ih st1 targets hn ts' st' h

/-- In preserve mode a user directory comes out of the run unchanged. -/
theorem processUser_preserve {hashFn : Chars → Chars} {parse : Chars → Option Nat}
    {cfg : Config} {st : RunSt} {u u' : UserDir} {st' : RunSt}
    (hp : cfg.preserveOriginals = true)
    (hn : (u.targets.map TargetDir.tname).Nodup)
    (h : processUser hashFn parse cfg st u = .ok (u', st')) : u' = u := by
  unfold processUser at h
  split at h
  · simp only [Except.ok.injEq, Prod.mk.injEq] at h
    exact h.1.symm
  · cases hf : processTargetFolders hashFn parse cfg st u.targets cfg.targetFolders with
    | error err => rw [hf] at h; cases h
    | ok q =>
      obtain ⟨ts', st1⟩ := q
      rw [hf] at h
      dsimp only at h
      simp only [Except.ok.injEq, Prod.mk.injEq] at h
      rw [← h.1, processTargetFolders_preserve hp cfg.targetFolders st u.targets hn ts' st1 hf]

/-- In preserve mode the whole user list comes out of the run unchanged. -/
theorem processUsers_preserve {hashFn : Chars → Chars} {parse : Chars → Option Nat}
    {cfg : Config} (hp : cfg.preserveOriginals = true) :
    ∀ (us : List UserDir) (st : RunSt),
      (∀ u ∈ us, (u.targets.map TargetDir.tname).Nodup) →
      ∀ (us' : List UserDir) (st' : RunSt),
        processUsers hashFn parse cfg st us = .ok (us', st') → us' = us := by
  intro us
  induction us with
  | nil =>
    intro st hn us' st' h
    simp only [processUsers, Except.ok.injEq, Prod.mk.injEq] at h
    exact h.1.symm
  | cons u rest ih =>
    intro st hn us' st' h
    simp only [processUsers] at h
    cases h1 : processUser hashFn parse cfg st u with
    | error err => rw [h1] at h; cases h
    | ok p =>
      obtain ⟨u', st1⟩ := p
      rw [h1] at h
      dsimp only at h
      cases h2 : processUsers hashFn parse cfg st1 rest with
      | error err => rw [h2] at h; cases h
      | ok q =>
        obtain ⟨rest', st2⟩ := q
        rw [h2] at h
        simp only [Except.ok.injEq, Prod.mk.injEq] at h
        rw [← h.1, processUser_preserve hp (hn u (List.mem_cons_self u rest)) h1,
          ih st1 (fun a ha => hn a (List.mem_cons_of_mem u ha)) rest' st2 h2]

/-- C10 (confirmed): with preserve-originals enabled, (1) a successful run
leaves every user directory — every entry at every original path — exactly as
it was: no symlink is created and no original is removed, so the original
path still holds the same regular non-symlink file with unchanged content;
and (2) on the step-4 path the per-file step copies the content to
`storage_path / target / clean_name`, a path under the storage root, while
returning the source entry untouched. -/
theorem c10_preserve_mode :
    (∀ (hashFn : Chars → Chars) (parse : Chars → Option Nat) (cfg : Config) (sys sys' : Sys)
        (m c : Nat),
        cfg.preserveOriginals = true →
        (∀ u ∈ sys.users, (u.targets.map TargetDir.tname).Nodup) →
        process_files hashFn parse cfg sys = .ok (sys', m, c) → sys'.users = sys.users) ∧
    (∀ (hashFn : Chars → Chars) (cfg : Config) (tn : Chars) (st : RunSt) (f : MFile)
        (cn : Chars),
        cfg.preserveOriginals = true →
        should_process_file cfg f = true → f.readable = true → f.statOk = true →
        lookupStorageCopy st.db (hashFn f.content) cfg.storagePath = none →
        clean_filename f.name (hashFn f.content) = some cn →
        processEntry hashFn cfg (cfg.storagePath ++ '/' :: tn) st (.file f)
            = .ok (.file f,
                { storage := storagePut st.storage
                    ((cfg.storagePath ++ '/' :: tn) ++ '/' :: cn) f.content f.mtime
                  db := save_file_hash_db st.db (hashFn f.content) f.path f.mtime
                  moves := st.moves
                  copies := st.copies + 1 }) ∧
          beginsWith (cfg.storagePath ++ ['/'])
            ((cfg.storagePath ++ '/' :: tn) ++ '/' :: cn) = true) := by
  constructor
  · intro hashFn parse cfg sys sys' m c hp hn h
    unfold process_files at h
    cases hpu : processUsers hashFn parse cfg ⟨sys.storage, sys.db, 0, 0⟩ sys.users with
    | error err => rw [hpu] at h; cases h
    | ok q =>
      obtain ⟨us', st'⟩ := q
      rw [hpu] at h
      dsimp only at h
      simp only [Except.ok.injEq, Prod.mk.injEq] at h
      have husers : sys'.users = us' := by rw [← h.1]
      rw [husers, processUsers_preserve hp sys.users ⟨sys.storage, sys.db, 0, 0⟩ hn us' st' hpu]
  · intro hashFn cfg tn st f cn hp helig hread hstat hlook hclean
    have hshape : (cfg.storagePath ++ '/' :: tn) ++ '/' :: cn
        = (cfg.storagePath ++ ['/']) ++ (tn ++ '/' :: cn) := by simp
    constructor
    · simp only [processEntry, helig, calculate_md5, hread, hlook, hclean, hp, hstat,
        not_true, if_true, if_false]
    · rw [hshape, beginsWith_append]

/-- The configuration `cfgBase` with preserve mode switched on. -/
def cfgP : Config := { cfgBase with preserveOriginals := true }

/-- World `sysA` after one preserve-mode run: source tree unchanged, one copy
in storage, one database row for the source path. -/
def sysP1 : Sys :=
  { users := sysA.users
    storage := [⟨"/st/Image/a_XYZ.jpg".toList, "XYZ".toList, 10⟩]
    db := [⟨"XYZ".toList, "/wc/u1/Image/a.jpg".toList, 10⟩] }

theorem c10_preserve_mode_witness :
    sysP1.users = sysA.users ∧
      processEntry hashId cfgP (cfgP.storagePath ++ '/' :: "Image".toList) ⟨[], [], 0, 0⟩
          (.file fileA)
        = .ok (.file fileA,
            { storage := storagePut []
                ((cfgP.storagePath ++ '/' :: "Image".toList) ++ '/' :: "a_XYZ.jpg".toList)
                fileA.content fileA.mtime
              db := save_file_hash_db [] (hashId fileA.content) fileA.path fileA.mtime
              moves := 0
              copies := 0 + 1 }) ∧
      beginsWith (cfgP.storagePath ++ ['/'])
        ((cfgP.storagePath ++ '/' :: "Image".toList) ++ '/' :: "a_XYZ.jpg".toList) = true := by
  refine ⟨?_, ?_, ?_⟩
  · exact c10_preserve_mode.1 hashId parseU cfgP sysA sysP1 0 1 rfl (by decide) rfl
  · exact (c10_preserve_mode.2 hashId cfgP "Image".toList ⟨[], [], 0, 0⟩ fileA
      "a_XYZ.jpg".toList rfl (by decide) rfl rfl rfl rfl).1
  · exact (c10_preserve_mode.2 hashId cfgP "Image".toList ⟨[], [], 0, 0⟩ fileA
      "a_XYZ.jpg".toList rfl (by decide) rfl rfl rfl rfl).2

/-- When the incremental policy rejects every user directory, the run is a
no-op on the world and performs no moves or copies. -/
theorem processUsers_skip_all {hashFn : Chars → Chars} {parse : Chars → Option Nat}
    {cfg : Config} :
    ∀ (us : List UserDir) (st : RunSt),
      (∀ u ∈ us, should_process_directory parse cfg.lastRun u.ustatOk u.umtime = false) →
      processUsers hashFn parse cfg st us = .ok (us, st) := by
  intro us
  induction us with
  | nil => intro st h; rfl
  | cons u rest ih =>
    intro st h
    have hu := h u (List.mem_cons_self u rest)
    have hrest := ih st (fun a ha => h a (List.mem_cons_of_mem u ha))
    simp only [processUsers, processUser, hu, Bool.false_eq_true, not_false_eq_true,
      if_true, hrest]

/-- The run never changes a user directory's own metadata (its path is only
read; moves happen inside target subdirectories). -/
theorem processUser_meta {hashFn : Chars → Chars} {parse : Chars → Option Nat} {cfg : Config}
    {st : RunSt} {u u' : UserDir} {st' : RunSt}
    (h : processUser hashFn parse cfg st u = .ok (u', st')) :
    u'.ustatOk = u.ustatOk ∧ u'.umtime = u.umtime := by
  unfold processUser at h
  split at h
  · simp only [Except.ok.injEq, Prod.mk.injEq] at h
    rw [← h.1]
    exact ⟨rfl, rfl⟩
  · cases hf : processTargetFolders hashFn parse cfg st u.targets cfg.targetFolders with
    | error err => rw [hf] at h; cases h
    | ok q =>
      obtain ⟨ts', st1⟩ := q
      rw [hf] at h
      dsimp only at h
      simp only [Except.ok.injEq, Prod.mk.injEq] at h
      rw [← h.1]
      exact ⟨rfl, rfl⟩

/-- Any property of the user directories' `stat` status and mtime survives a
successful run. -/
theorem processUsers_meta {hashFn : Chars → Chars} {parse : Chars → Option Nat} {cfg : Config}
    (P : Bool → Nat → Prop) :
    ∀ (us : List UserDir) (st : RunSt) (us' : List UserDir) (st' : RunSt),
      processUsers hashFn parse cfg st us = .ok (us', st') →
      (∀ u ∈ us, P u.ustatOk u.umtime) → ∀ u' ∈ us', P u'.ustatOk u'.umtime := by
  intro us
  induction us with
  | nil =>
    intro st us' st' h hP u' hu'
    simp only [processUsers, Except.ok.injEq, Prod.mk.injEq] at h
    rw [← h.1] at hu'
    cases hu'
  | cons u rest ih =>
    intro st us' st' h hP u' hu'
    simp only [processUsers] at h
    cases h1 : processUser hashFn parse cfg st u with
    | error err => rw [h1] at h; cases h
    | ok p =>
      obtain ⟨u1, st1⟩ := p
      rw [h1] at h
      dsimp only at h
      cases h2 : processUsers hashFn parse cfg st1 rest with
      | error err => rw [h2] at h; cases h
      | ok q =>
        obtain ⟨rest', st2⟩ := q
        rw [h2] at h
        simp only [Except.ok.injEq, Prod.mk.injEq] at h
        rw [← h.1] at hu'
        rcases List.mem_cons.mp hu' with rfl | hu''
        · obtain ⟨hso, hmt⟩ := processUser_meta h1
          rw [hso, hmt]
          exact hP u (List.mem_cons_self u rest)
        · exact ih st1 rest' st2 h2 (fun a ha => hP a (List.mem_cons_of_mem u ha)) u' hu''

/-- C9 (confirmed): running the full consolidation (`process_files` then
`update_last_run`) twice in succession with no filesystem changes in between
performs zero moves and zero copies in the second run and returns the world —
storage, source trees and HashIndex content — exactly as the first run left
it.  Hypotheses: the serialized timestamp is nonempty and parses back
(`datetime.isoformat` round-trips through `fromisoformat`), and the user
directories are stat-able with mtimes not in the future of the first run's
completion; the run itself never touches a user directory's own mtime, so
after `update_last_run` records `now1`, the second run's
`should_process_directory` rejects every user directory. -/
theorem c9_idempotent_second_run (hashFn : Chars → Chars) (parse : Chars → Option Nat)
    (fmt : Nat → Chars) (cfg : Config) (sys : Sys) (now1 now2 : Nat)
    (cfg1 : Config) (sys1 : Sys) (m1 c1 : Nat)
    (h0 : fmt now1 ≠ [])
    (h1 : parse (fmt now1) = some now1)
    (h2 : ∀ u ∈ sys.users, u.ustatOk = true ∧ u.umtime ≤ now1)
    (h3 : consolidate hashFn parse fmt cfg sys now1 = .ok (cfg1, sys1, m1, c1)) :
    consolidate hashFn parse fmt cfg1 sys1 now2
      = .ok (update_last_run fmt cfg1 now2, sys1, 0, 0) := by
  unfold consolidate at h3
  cases hpf : process_files hashFn parse cfg sys with
  | error err => rw [hpf] at h3; cases h3
  | ok r =>
    obtain ⟨sysr, mr, cr⟩ := r
    rw [hpf] at h3
    dsimp only at h3
    simp only [Except.ok.injEq, Prod.mk.injEq] at h3
    obtain ⟨hcfg1, hsys1, _, _⟩ := h3
    have hlr : cfg1.lastRun = some (fmt now1) := by rw [← hcfg1]; rfl
    unfold process_files at hpf
    cases hpu : processUsers hashFn parse cfg ⟨sys.storage, sys.db, 0, 0⟩ sys.users with
    | error err => rw [hpu] at hpf; cases hpf
    | ok q =>
      obtain ⟨us', st'⟩ := q
      rw [hpu] at hpf
      dsimp only at hpf
      simp only [Except.ok.injEq, Prod.mk.injEq] at hpf
      have husers : sys1.users = us' := by rw [← hsys1, ← hpf.1]
      have hmeta : ∀ u' ∈ sys1.users, u'.ustatOk = true ∧ u'.umtime ≤ now1 := by
        rw [husers]
        exact processUsers_meta (fun b n => b = true ∧ n ≤ now1) sys.users
          ⟨sys.storage, sys.db, 0, 0⟩ us' st' hpu h2
      have hskip : ∀ u' ∈ sys1.users,
          should_process_directory parse cfg1.lastRun u'.ustatOk u'.umtime = false := by
        intro u' hu'
        obtain ⟨hso, hmt⟩ := hmeta u' hu'
        rw [hlr]
        have hie : (fmt now1).isEmpty = false := by
          cases hf : fmt now1
          · exact absurd hf h0
          · rfl
        simp only [should_process_directory, hso, h1, hie, Bool.false_eq_true, if_false,
          if_true, decide_eq_false_iff_not]
        omega
      unfold consolidate process_files
      rw [processUsers_skip_all sys1.users ⟨sys1.storage, sys1.db, 0, 0⟩ hskip]

/-- The configuration as the first sample run's `update_last_run` leaves it. -/
def cfg1W : Config := { cfgBase with lastRun := some (fmtU 20) }

theorem c9_idempotent_second_run_witness :
    consolidate hashId parseU fmtU cfg1W sysA1 30
      = .ok (update_last_run fmtU cfg1W 30, sysA1, 0, 0) :=
  c9_idempotent_second_run hashId parseU fmtU cfgBase sysA 20 30 cfg1W sysA1 1 0
    (by decide) (by decide) (by decide) rfl

end WFM
